import Mathlib

/-!
Shallow embedding of src/BitVector.hpp (class BitVector<N>).

A BitVector stores its bits in an array of 64-bit machine words
(word_t = uint64_t), least significant word first; the first
BITS_TO_WORDS(N) words live in the object (member `words`), the rest in a
heap buffer (member `morewords`).  The macro WORD(n) addresses "word n"
uniformly across the two regions, so every algorithm of the class is
written against a flat word array.  We model that flat array as a
`List Nat` (least significant word first, each entry < 2^64), together
with the `length` member (the bit width).

Word-level operations of the source touch only word indices
0 .. BITS_TO_WORDS(length) - 1, so for those operations we take the list
to consist of exactly the occupied words.  Models that need to see the
storage bounds (the string constructor) or the byte granularity of
memmove/memset (left shift) or the heap allocator (copyFrom) use the
dedicated definitions further down.
-/

namespace BitVectorSpec

/-- 2^64, the modulus of word_t (uint64_t) arithmetic. -/
def wordMod : Nat := 2 ^ 64

/-- BITS_TO_WORDS(n) = CEILDIV(CEILDIV(n, 8), 8), the number of words
needed for n bits, written exactly as the macro chain
BYTES_TO_WORDS(BITS_TO_BYTES(n)) expands (BITS_PER_BYTE = 8,
BYTES_PER_WORD = 8). -/
def bitsToWords (n : Nat) : Nat := ((n + 7) / 8 + 7) / 8

/-- MASK_WITH_LOWER_BITS(n): a word with only the n lowest-order bits
set, ((word_t)1 << n) - 1.  The source only instantiates it with
n = length % 64 < 64, so the shift never overflows word_t. -/
def maskLower (n : Nat) : Nat := (1 <<< n) - 1

/-- EXTRACT_BIT(w, n) = (w >> n) & 1. -/
def extractBit (w n : Nat) : Nat := (w >>> n) &&& 1

/-- ~(word_t)w, one's complement of a 64-bit word: the source writes it
as XOR with ~(word_t)0 = 2^64 - 1. -/
def notWord (w : Nat) : Nat := w ^^^ (wordMod - 1)

/-- The members of BitVector<N> that carry its value: `length` (the bit
width) and the flat word array addressed by WORD(n) (least significant
word first).  For the word-level operations the list holds exactly the
BITS_TO_WORDS(length) occupied words. -/
structure BV where
  length : Nat
  words : List Nat
deriving DecidableEq

/-- WORD(i) as an r-value: word i of the flat array. -/
def wordOf (v : BV) (i : Nat) : Nat := v.words.getD i 0

/-- BitVector::width(), which returns the `length` member. -/
def width (v : BV) : Nat := v.length

/-- BitVector::getBit(index): word index / 64, bit position index % 64,
result (WORD(wordidx) & MASK_WITH_BIT(position)) != 0. -/
def getBit (v : BV) (index : Nat) : Bool :=
  (wordOf v (index / 64) &&& (1 <<< (index % 64))) != 0

/-- BitVector::setBit(index, x): WORD(wordidx) |= MASK_WITH_BIT(position)
when x, WORD(wordidx) &= ~MASK_WITH_BIT(position) otherwise. -/
def setBit (v : BV) (index : Nat) (x : Bool) : BV :=
  ⟨v.length,
   if x then
     v.words.set (index / 64) (wordOf v (index / 64) ||| (1 <<< (index % 64)))
   else
     v.words.set (index / 64) (wordOf v (index / 64) &&& notWord (1 <<< (index % 64)))⟩

/-- BitVector::flipBit(index): WORD(wordidx) ^= MASK_WITH_BIT(position). -/
def flipBit (v : BV) (index : Nat) : BV :=
  ⟨v.length,
   v.words.set (index / 64) (wordOf v (index / 64) ^^^ (1 <<< (index % 64)))⟩

/-- BitVector::operator== (source lines 615-630): compare words
0 .. lastidx-1 directly (the loop returns false at the first mismatch,
so it computes the conjunction), then compare the words at lastidx with
both sides masked by MASK_WITH_LOWER_BITS(length % 64).
Note the degenerate mask: when length % 64 == 0 the mask is
(1 << 0) - 1 = 0, so the last word is compared with every bit masked
out. -/
def eqBV (a b : BV) : Bool :=
  let lastidx := bitsToWords a.length - 1
  let mask := maskLower (a.length % 64)
  ((List.range lastidx).all fun i => wordOf a i == wordOf b i) &&
    ((wordOf a lastidx &&& mask) == (wordOf b lastidx &&& mask))

/-- BitVector::operator< (source lines 637-656): first compare the
masked most-significant words; if the left one is smaller return true.
Then scan word indices lastidx-1 down to 0 and return true at the first
index whose left word is smaller.  Otherwise return false.  The scan
only ever exits with `true`, so its direction does not matter and it is
the disjunction over the scanned indices. -/
def ltBV (a b : BV) : Bool :=
  let lastidx := bitsToWords a.length - 1
  let mask := maskLower (a.length % 64)
  (decide ((wordOf a lastidx &&& mask) < (wordOf b lastidx &&& mask))) ||
    ((List.range lastidx).any fun i => decide (wordOf a i < wordOf b i))

/-- BitVector::operator|= : WORD(i) |= rhs word, for
i < BITS_TO_WORDS(length); widths are asserted equal so the word lists
have equal length and zipWith is the loop. -/
def orAssign (a b : BV) : BV :=
  ⟨a.length, List.zipWith (fun x y => x ||| y) a.words b.words⟩

/-- BitVector::operator&= : WORD(i) &= rhs word. -/
def andAssign (a b : BV) : BV :=
  ⟨a.length, List.zipWith (fun x y => x &&& y) a.words b.words⟩

/-- BitVector::operator^= (source lines 456-462).  The loop body is
`WORD(i) &= WORD_FROM(rhs, i);` - a word-wise AND, exactly as written
in the source. -/
def xorAssign (a b : BV) : BV :=
  ⟨a.length, List.zipWith (fun x y => x &&& y) a.words b.words⟩

/-- BitVector::operator^ (source lines 464-469): copy the left operand,
then apply operator^= to the copy. -/
def xorBin (a b : BV) : BV := xorAssign a b

/-- The word loop of BitVector::operator+= (source lines 540-559):
result word = x + y + carry with native uint64 wraparound, and the next
carry is (highx & highy) ^ (carry & (highx ^ highy)) where highx, highy
are bit 63 of the pre-addition operand words. -/
def addWords : List Nat → List Nat → Nat → List Nat
  | x :: xs, y :: ys, carry =>
      ((x + y + carry) % wordMod) ::
        addWords xs ys
          ((extractBit x 63 &&& extractBit y 63) ^^^
            (carry &&& (extractBit x 63 ^^^ extractBit y 63)))
  | _, _, _ => []

/-- BitVector::operator+= : run the full-adder loop over the occupied
words with initial carry 0. -/
def addAssign (a b : BV) : BV :=
  ⟨a.length, addWords a.words b.words 0⟩

/-- The word loop of BitVector::operator++ (source lines 502-513):
increment word i; stop at the first word that does not wrap to zero. -/
def incWords : List Nat → List Nat
  | [] => []
  | w :: rest =>
      ((w + 1) % wordMod) ::
        (if (w + 1) % wordMod = 0 then incWords rest else rest)

/-- BitVector::operator++ (pre-increment). -/
def incBV (v : BV) : BV := ⟨v.length, incWords v.words⟩

/-- The word loop of BitVector::operator-- (source lines 522-531):
`if ((WORD(i) --) != 0) return;` - word i is always decremented (with
uint64 wraparound), and the loop stops when the value *before* the
decrement was non-zero (no borrow needed). -/
def decWords : List Nat → List Nat
  | [] => []
  | w :: rest =>
      ((w + (wordMod - 1)) % wordMod) ::
        (if w = 0 then decWords rest else rest)

/-- BitVector::operator-- (pre-decrement). -/
def decBV (v : BV) : BV := ⟨v.length, decWords v.words⟩

/-- BitVector::operator++(int) (post-increment): copy the current value,
mutate via pre-increment, return the pre-mutation copy alongside the
mutated object. -/
def postInc (v : BV) : BV × BV := (v, incBV v)

/-- BitVector::operator--(int) (post-decrement). -/
def postDec (v : BV) : BV × BV := (v, decBV v)

/-- BitVector::complement (source lines 579-584): WORD(i) ^= ~(word_t)0
for every occupied word. -/
def complement (v : BV) : BV :=
  ⟨v.length, v.words.map notWord⟩

/-- BitVector::negate: one's complement followed by pre-increment. -/
def negate (v : BV) : BV := incBV (complement v)

/-- The value represented by a word list, least significant word
first. -/
def listVal : List Nat → Nat
  | [] => 0
  | w :: rest => w + wordMod * listVal rest

/-! ### BitVector::toString (radix 2), source lines 352-373

The source allocates a char buffer of length+1 uninitialized bytes,
runs `for (i = length, j = 0; i >= 2; --i, ++j) s[i] = getBit(j) ...`,
then writes `s[length] = NUL` and builds a std::string from the buffer
(which reads characters from index 0 up to the first NUL).  So the
surviving writes put bit (length - k) at buffer index k for
2 <= k < length, index length holds NUL (overwriting the bit-0 write),
and indices 0 and 1 are never written: they keep their indeterminate
initial contents, modelled by the parameter g (a function giving the
byte at each buffer index as allocated). -/

/-- The NUL character. -/
def nulChar : Char := Char.ofNat 0

/-- The buffer contents after the toString loop and the terminator
write, at index k; g gives the indeterminate initial byte of each
buffer cell. -/
def bufAt (v : BV) (g : Nat → Char) (k : Nat) : Char :=
  if k = v.length then nulChar
  else if 2 ≤ k ∧ k < v.length then (if getBit v (v.length - k) then '1' else '0')
  else g k

/-- The characters of the std::string that toString returns: the buffer
bytes from index 0 up to (excluding) the first NUL. -/
def toStringBin (v : BV) (g : Nat → Char) : List Char :=
  ((List.range (v.length + 1)).map (bufAt v g)).takeWhile fun c => c != nulChar

/-! ### BitVector::BitVector(const char *, int radix = 2), source lines 319-332

The constructor resizes to strlen(string) bits without clearing, then
runs `for (i = 0; i <= length; ++i, --c) setBit(i, *c == '1')` with c
starting at string + length - 1.  Note the loop bound `i <= length`:
the final iteration reads the byte *before* the string (modelled by the
parameter gc) and calls setBit(length, ...), whose word index
length / 64 can lie outside the allocated storage.

Storage after resize: BITS_TO_WORDS(N) in-object words plus, when
strlen > N, BITS_TO_WORDS(strlen) - BITS_TO_WORDS(N) heap words; all of
it with indeterminate contents (resize is called with clear = false and
this constructor never zeroes the in-object words).  The parameter g is
that allocated storage, one list entry per word.  Per the wordAt
contract of the design (word index must be below the allocated word
count; anything else is out of bounds), an access past the storage is
modelled as failure (none). -/

/-- The character the loop reads at iteration i: string[length - 1 - i]
for i < length, and the out-of-bounds byte string[-1] (parameter gc) at
the final iteration i = length. -/
def charAtSrc (s : List Char) (gc : Char) (i : Nat) : Char :=
  if i < s.length then s.getD (s.length - 1 - i) 'x' else gc

/-- setBit with the storage bound made explicit: writing a bit whose
word index is not backed by the allocated storage is an out-of-bounds
access (none). -/
def setBitChecked (v : BV) (index : Nat) (x : Bool) : Option BV :=
  if index / 64 < v.words.length then some (setBit v index x) else none

/-- The string constructor: g is the allocated word storage (with its
indeterminate initial contents), gc the byte preceding the string, s
the characters of the string.  Width = s.length; when the string is
empty the constructor returns before the loop. -/
def fromString (g : List Nat) (gc : Char) (s : List Char) : Option BV :=
  let v0 : BV := ⟨s.length, g⟩
  if s.length = 0 then some v0
  else
    (List.range (s.length + 1)).foldlM
      (fun v i => setBitChecked v i (charAtSrc s gc i == '1')) v0

/-! ### BitVector::operator<<= and slideBytesRight, source lines 477-493 and 763-776

slideBytesRight moves *bytes*, so this model keeps the in-object
storage as a list of bytes (8 per word, least significant byte of each
word at the lowest offset - little-endian words, as on the x86-64
targets of the source).  We model the `morewords == nullptr` branch:
the function then executes
  memmove(words + slide, words, BITS_TO_WORDS(N) - slide);
  memset(words, fill, slide);
where `words + slide` advances a word_t pointer by `slide` words
(8 * slide bytes) while `BITS_TO_WORDS(N) - slide` and `slide` are byte
counts for memmove/memset.  The model reproduces those mismatched
units exactly.  It is meaningful for slide <= BITS_TO_WORDS(N); beyond
that the size_t subtraction wraps and the source's memmove length is
astronomical (undefined). -/

/-- In-object byte storage of BitVector<N>: `length` and the
8 * BITS_TO_WORDS(N) bytes of the `words` member, lowest address
first. -/
structure BVB where
  length : Nat
  bytes : List Nat
deriving DecidableEq

/-- The value of word w assembled from the little-endian bytes. -/
def wordOfB (v : BVB) (w : Nat) : Nat :=
  (List.range 8).foldr (fun j acc => v.bytes.getD (8 * w + j) 0 * 2 ^ (8 * j) + acc) 0

/-- getBit on the byte-level storage: read WORD(index / 64) and extract
bit index % 64, exactly as BitVector::getBit. -/
def getBitB (v : BVB) (index : Nat) : Bool :=
  (wordOfB v (index / 64) &&& (1 <<< (index % 64))) != 0

/-- memmove(base + dst, base + src, len) on a byte list: bytes
dst .. dst+len-1 receive the original bytes src .. src+len-1 (memmove
copies as if through a temporary), everything else is unchanged. -/
def memmoveB (l : List Nat) (dst src len : Nat) : List Nat :=
  (List.range l.length).map fun k =>
    if dst ≤ k ∧ k < dst + len then l.getD (src + (k - dst)) 0 else l.getD k 0

/-- memset(base + off, val, len) on a byte list. -/
def memsetB (l : List Nat) (off len val : Nat) : List Nat :=
  (List.range l.length).map fun k =>
    if off ≤ k ∧ k < off + len then val else l.getD k 0

/-- The byte effect of slideBytesRight(slide, fill) with no heap
storage: the memmove destination is byte offset 8 * slide (word
pointer arithmetic), its length is BITS_TO_WORDS(N) - slide *bytes*,
then the first `slide` bytes are set to fill. -/
def slideBytesRight (N : Nat) (bytes : List Nat) (slide fill : Nat) : List Nat :=
  memsetB (memmoveB bytes (8 * slide) 0 (bitsToWords N - slide)) 0 slide fill

/-- BitVector::operator<<= : nothing for count = 0; for a positive
multiple of 8, slideBytesRight(count / 8).  Other shift amounts hit
assert(false) in the source ("Shift amount is not supported yet") and
are modelled as leaving the value unchanged; the claims only exercise
multiples of 8. -/
def shlAssign (N : Nat) (v : BVB) (count : Nat) : BVB :=
  ⟨v.length,
   if count = 0 then v.bytes
   else if count % 8 = 0 then slideBytesRight N v.bytes (count / 8) 0
   else v.bytes⟩

/-! ### BitVector::copyFrom and resize in a heap model, source lines 736-755 and 687-728

copyFrom is the one operation whose behaviour depends on the split
between the in-object `words` array and the heap pointer `morewords`,
so here the two are kept separate and heap buffers live in an explicit
memory: an address-indexed store with a bump allocator (`new` returns
the next fresh address).

HEAP_SIZE_IN_WORDS(n) = BITS_TO_WORDS(n) - BITS_TO_WORDS(N) is size_t
arithmetic: when BITS_TO_WORDS(n) < BITS_TO_WORDS(N) the subtraction
wraps modulo 2^64. -/

/-- The heap: buffer contents per address, plus the next fresh
address. -/
structure Mem where
  bufs : Nat → List Nat
  next : Nat

/-- BitVector<N> with the storage split visible: the in-object word
array (BITS_TO_WORDS(N) words) and the optional heap buffer
address. -/
structure BVH where
  length : Nat
  inlineW : List Nat
  morewords : Option Nat

/-- HEAP_SIZE_IN_WORDS(n) with size_t wraparound. -/
def heapSizeInWords (N n : Nat) : Nat :=
  (bitsToWords n + wordMod - bitsToWords N) % wordMod

/-- BitVector::resize(width, clear = false), the form every caller in
the claims uses (copyFrom always passes clear = false, so the
clear-branch of the source is never taken here).  garbage supplies the
indeterminate contents of the uncopied part of a fresh allocation. -/
def resizeNoClear (N : Nat) (m : Mem) (v : BVH) (w : Nat) (garbage : List Nat) :
    BVH × Mem :=
  let heapWordsNeeded := if w > N then heapSizeInWords N w else 0
  let heapWordsCurrent :=
    match v.morewords with
    | none => 0
    | some _ => heapSizeInWords N v.length
  if w ≤ N then
    -- delete [] morewords; morewords = nullptr
    (⟨w, v.inlineW, none⟩, m)
  else if heapWordsNeeded > heapWordsCurrent then
    -- newwords = new word_t[heapWordsNeeded];
    -- memcpy(newwords, morewords, WORDS_TO_BYTES(heapWordsCurrent));
    let old := match v.morewords with
               | none => []
               | some a => (m.bufs a).take heapWordsCurrent
    let contents := old ++ garbage.take (heapWordsNeeded - heapWordsCurrent)
    (⟨w, v.inlineW, some m.next⟩,
     ⟨fun b => if b = m.next then contents else m.bufs b, m.next + 1⟩)
  else
    (⟨w, v.inlineW, v.morewords⟩, m)

/-- BitVector::copyFrom(other) for distinct objects (the self-copy
early-out compares addresses and does not apply to copying between two
different BitVectors): resize to other's length without clearing, copy
the whole in-object array, then, when HEAP_SIZE_IN_WORDS(length) > 0,
allocate a heap buffer of that many words and memcpy that many words
from other's heap pointer.  When other has no heap buffer
(other.morewords == nullptr) that memcpy reads through a null pointer -
and with BITS_TO_WORDS(length) < BITS_TO_WORDS(N) the wrapped size_t
word count is 2^64 - something, so the `new` itself cannot succeed
either; both are modelled as failure (none). -/
def copyFrom (N : Nat) (m : Mem) (dst src : BVH) (garbage : List Nat) :
    Option (BVH × Mem) :=
  let r := resizeNoClear N m dst src.length garbage
  let v1 := r.1
  let m1 := r.2
  let v2 : BVH := ⟨v1.length, src.inlineW, v1.morewords⟩
  let heapWordsNeeded := heapSizeInWords N v2.length
  if heapWordsNeeded > 0 then
    match src.morewords with
    | none => none
    | some a =>
        some (⟨v2.length, v2.inlineW, some m1.next⟩,
              ⟨fun b => if b = m1.next then (m1.bufs a).take heapWordsNeeded
                        else m1.bufs b,
               m1.next + 1⟩)
  else
    some (v2, m1)

/-- The copy constructor BitVector(const BitVector &other): a fresh
object (length 0, no heap pointer, indeterminate in-object words -
this constructor performs no memset) that copyFrom is applied to. -/
def copyCtor (N : Nat) (m : Mem) (src : BVH) (garbageInline garbageHeap : List Nat) :
    Option (BVH × Mem) :=
  copyFrom N m ⟨0, garbageInline, none⟩ src garbageHeap

/-! ## Theorems -/

/-- Equality is reflexive in the model: every word compares equal to
itself and so does the masked top word. -/
theorem eqBV_refl (v : BV) : eqBV v v = true := by
  simp [eqBV]

/-- Decrement followed by increment restores the word array exactly:
the borrow and the carry ripple through the same prefix of words. -/
theorem incWords_decWords :
    ∀ ws : List Nat, (∀ w ∈ ws, w < wordMod) → incWords (decWords ws) = ws := by
  intro ws
  induction ws with
  | nil => intro _; rfl
  | cons w rest ih =>
    intro h
    have hw : w < wordMod := h w (by simp)
    have hrest : ∀ x ∈ rest, x < wordMod := fun x hx => h x (by simp [hx])
    have hpos : 0 < wordMod := by decide
    by_cases hz : w = 0
    · subst hz
      have h1 : (0 + (wordMod - 1)) % wordMod = wordMod - 1 := by
        rw [Nat.zero_add]; exact Nat.mod_eq_of_lt (by omega)
      have h2 : (wordMod - 1 + 1) % wordMod = 0 := by
        rw [Nat.sub_add_cancel (by omega)]; exact Nat.mod_self _
      simp [decWords, incWords, h1, h2, ih hrest]
    · have h1 : (w + (wordMod - 1)) % wordMod = w - 1 := by
        have he : w + (wordMod - 1) = (w - 1) + wordMod := by omega
        rw [he, Nat.add_mod_right]
        exact Nat.mod_eq_of_lt (by omega)
      have h2 : (w - 1 + 1) % wordMod = w := by
        rw [Nat.sub_add_cancel (by omega)]
        exact Nat.mod_eq_of_lt hw
      simp [decWords, incWords, h1, h2, hz]

/-- Claim C1.  The claim states that operator== masks out only padding
bits, and that for a width that is an exact multiple of the word size
the whole most-significant word is compared.  In the source, width 64
gives mask = MASK_WITH_LOWER_BITS(64 % 64) = 0, so the single
(entirely significant) word is compared with every bit masked out: two
width-64 vectors that differ at the significant bit 63 compare
equal. -/
theorem eq_ignores_entire_top_word_at_word_multiple :
    maskLower (64 % 64) = 0 ∧
      eqBV ⟨64, [2 ^ 63]⟩ ⟨64, [0]⟩ = true ∧
      getBit ⟨64, [2 ^ 63]⟩ 63 ≠ getBit ⟨64, [0]⟩ 63 := by
  refine ⟨rfl, by decide, by decide⟩

/-- Claim C2.  The claim states that operator< is standard unsigned
multi-word comparison, where the most significant differing word alone
decides.  In the source the scan over the lower words never stops at a
word where the left operand is greater, so with width 65,
a = 2^64 (words [0, 1]) and b = 1 (words [1, 0]), both a < b and b < a
return true - the most significant differing word of a is the greater
one, yet a < b is not false. -/
theorem lt_true_in_both_directions :
    ltBV ⟨65, [0, 1]⟩ ⟨65, [1, 0]⟩ = true ∧
      ltBV ⟨65, [1, 0]⟩ ⟨65, [0, 1]⟩ = true := by
  decide

/-- Claim C3.  The claim states that operator^= and operator^ compute
true word-wise XOR.  The source's loop body is `WORD(i) &= rhs`, a
word-wise AND: on two width-1 vectors that both hold 1, the result bit
is 1 where XOR requires 0 - in both the compound and the allocating
form. -/
theorem xor_operator_behaves_as_and :
    getBit (xorAssign ⟨1, [1]⟩ ⟨1, [1]⟩) 0 ≠
        xor (getBit ⟨1, [1]⟩ 0) (getBit ⟨1, [1]⟩ 0) ∧
      getBit (xorBin ⟨1, [1]⟩ ⟨1, [1]⟩) 0 ≠
        xor (getBit ⟨1, [1]⟩ 0) (getBit ⟨1, [1]⟩ 0) := by
  decide

/-- Claim C4.  The claim states that toString (radix 2) returns exactly
`width` characters with character j equal to bit width-1-j.  In the
source the output loop runs from buffer index `length` down to 2
(writing bit j at index length - j), the terminator overwrites the
bit-0 character, and buffer indices 0 and 1 are never written, so for
the width-4 vector with bits 1010 (word value 10) the returned
characters are never "1010", whatever the indeterminate buffer bytes g
happen to be. -/
theorem toString_never_produces_the_bits (g : Nat → Char) :
    toStringBin ⟨4, [10]⟩ g ≠ ['1', '0', '1', '0'] := by
  intro h
  have hmap : (List.range (4 + 1)).map (bufAt ⟨4, [10]⟩ g) =
      [g 0, g 1, '0', '1', nulChar] := rfl
  have hpre : toStringBin ⟨4, [10]⟩ g <+: [g 0, g 1, '0', '1', nulChar] := by
    rw [toStringBin, hmap]
    exact List.takeWhile_prefix _
  rw [h] at hpre
  obtain ⟨t, ht⟩ := hpre
  simp only [List.cons_append, List.nil_append, List.cons.injEq] at ht
  exact absurd ht.2.2.1 (by decide)

/-- Claim C5.  The claim states that construction from a base-2 digit
string of length L yields a width-L vector with bit i set iff character
L-1-i is '1'.  The source's copy loop runs `for (i = 0; i <= length)`:
the final iteration reads the byte before the string and calls
setBit(length, ...).  For a 64-character string (inline capacity
N = 64) that addresses word index 64 / 64 = 1 while the vector owns a
single word and no heap buffer - an out-of-bounds write through the
null heap pointer, so the construction does not yield the claimed
vector at all. -/
theorem fromString_overruns_at_word_multiple_length :
    fromString [0] 'x' (List.replicate 64 '1') = none := by
  decide

/-- Claim C6.  The claim states that operator+= computes the sum
modulo 2^w, with the carry formula (XOR of its two terms in the code)
propagating the carry between words.  The formula
(highx & highy) ^ (carry & (highx ^ highy)) inspects only bit 63 of the
pre-addition words and misses carries generated by their lower 63
bits: for width 128, all-ones + 1 yields words [0, 2^64 - 1] instead
of the true sum 0 = (2^128 - 1 + 1) mod 2^128. -/
theorem add_loses_carry_between_words :
    (addAssign ⟨128, [wordMod - 1, wordMod - 1]⟩ ⟨128, [1, 0]⟩).words =
        [0, wordMod - 1] ∧
      listVal (addAssign ⟨128, [wordMod - 1, wordMod - 1]⟩ ⟨128, [1, 0]⟩).words ≠
        (listVal [wordMod - 1, wordMod - 1] + listVal [1, 0]) % 2 ^ 128 := by
  decide

/-- Claim C7.  Pre-decrement followed by pre-increment restores the
original value under the masked equality of operator==, for every
positive width and every vector whose words are valid 64-bit values -
including full wraparound, since the borrow and carry ripple across
exactly the same words.  (Width 0 is excluded: there the source's
operator== underflows its size_t word index and is undefined.) -/
theorem inc_dec_roundtrip (v : BV) (hlen : 0 < v.length)
    (hv : ∀ w ∈ v.words, w < wordMod) :
    eqBV (incBV (decBV v)) v = true := by
  show eqBV ⟨v.length, incWords (decWords v.words)⟩ v = true
  rw [incWords_decWords v.words hv]
  exact eqBV_refl v

/-- Witness for claim C7 at the spec's own wraparound scenario: the
all-zero width-8 vector decrements to all-ones and increments back. -/
theorem inc_dec_roundtrip_witness :
    eqBV (incBV (decBV ⟨8, [0]⟩)) ⟨8, [0]⟩ = true :=
  inc_dec_roundtrip ⟨8, [0]⟩ (by decide) (by decide)

/-- Claim C8.  The claim states that copy construction produces a deep
valid copy for every source width, including widths occupying fewer
words than the inline capacity provides.  In copyFrom the heap word
count HEAP_SIZE_IN_WORDS(length) = BITS_TO_WORDS(length) -
BITS_TO_WORDS(N) is size_t arithmetic: copying a width-8 vector with
inline capacity N = 128 computes 1 - 2 = 2^64 - 1, then attempts to
allocate that many words and to memcpy them from the source's null
heap pointer - the copy construction crashes instead of producing a
copy. -/
theorem copyFrom_word_count_underflows :
    heapSizeInWords 128 8 = wordMod - 1 ∧
      copyCtor 128 ⟨fun _ => [], 0⟩ ⟨8, [170, 0], none⟩ [7, 7] [] = none := by
  exact ⟨rfl, rfl⟩

/-- Claim C9.  The claim states that for k a positive multiple of 8
with k < width, a <<= k moves bit i to bit i + k and zero-fills the
vacated low bits.  slideBytesRight passes *word* counts and word
pointer offsets to memmove/memset, which take *bytes*: for width 16
(inline capacity 64, one storage word) and k = 8, the memmove length is
BITS_TO_WORDS(64) - 1 = 0 bytes, so nothing moves and the memset merely
clears the low byte - bit 0 of the original is set, but bit 8 of the
result is clear. -/
theorem shl_moves_no_bits :
    getBitB ⟨16, [1, 0, 0, 0, 0, 0, 0, 0]⟩ 0 = true ∧
      getBitB (shlAssign 64 ⟨16, [1, 0, 0, 0, 0, 0, 0, 0]⟩ 8) 8 = false := by
  decide

/-- Claim C10.  Every in-place operation - pre/post increment and
decrement, +=, |=, &=, ^=, <<=, complement, negate, setBit and
flipBit - leaves width() unchanged: none of them ever assigns the
`length` member. -/
theorem inplace_ops_preserve_width (v b : BV) (u : BVB)
    (N index count : Nat) (x : Bool) :
    width (incBV v) = width v ∧ width (decBV v) = width v ∧
      width (postInc v).1 = width v ∧ width (postInc v).2 = width v ∧
      width (postDec v).1 = width v ∧ width (postDec v).2 = width v ∧
      width (addAssign v b) = width v ∧
      width (orAssign v b) = width v ∧
      width (andAssign v b) = width v ∧
      width (xorAssign v b) = width v ∧
      width (complement v) = width v ∧
      width (negate v) = width v ∧
      width (setBit v index x) = width v ∧
      width (flipBit v index) = width v ∧
      (shlAssign N u count).length = u.length :=
  ⟨rfl, rfl, rfl, rfl, rfl, rfl, rfl, rfl, rfl, rfl, rfl, rfl, rfl, rfl, rfl⟩

end BitVectorSpec
